import Mathlib

/-!
# Verification of the arcl-cli diff engine

Shallow embedding of the diff parsing / validation / transactional patch
application core of the repository:

* `applyPatch`, `createBackup`, `applyDiffToFile`, `restoreFromBackup`
  from `src/applyDiff.js`;
* `validateDiffFormat` from the LLM-layer module (`validateDiffFormat` in
  the staged source);
* the UTF-8 I/O collaborators (`readFileUTF8`, `writeFileUTF8`,
  `copyFileUTF8`, `fileExists` of `io.js`) modelled as an explicit
  filesystem state (`FsState`) together with an outcome environment
  (`Env`) that decides which I/O operations succeed, and an event trace.

JavaScript strings are modelled as `List Char` (`JsStr`).  The JS regular
expressions appearing in the sources are implemented as scanning functions
with the same (deterministic, leftmost-match) semantics on their concrete
patterns.  `String.prototype.trim` / `\s` are modelled with
`Char.isWhitespace` (an ASCII approximation that agrees on all characters
relevant here).
-/

/-- JavaScript strings, modelled as lists of characters. -/
abbrev JsStr := List Char

/-! ## Basic string operations mirroring the JS primitives -/

/-- `s.startsWith(pat)`. -/
def strStartsWith : JsStr → JsStr → Bool
  | _, [] => true
  | [], _ :: _ => false
  | c :: s, p :: ps => if c = p then strStartsWith s ps else false

/-- `s.includes(pat)` (substring search). -/
def strContains : JsStr → JsStr → Bool
  | [], pat => strStartsWith [] pat
  | s@(_ :: rest), pat => strStartsWith s pat || strContains rest pat

/-- `s.split(sep)` for a single-character separator class given by `p`:
used for `split('\n')` and `split(/[/\\]/)`. -/
def splitOnPred (p : Char → Bool) : JsStr → List JsStr
  | [] => [[]]
  | c :: rest =>
    if p c then [] :: splitOnPred p rest
    else
      match splitOnPred p rest with
      | l :: ls => (c :: l) :: ls
      | [] => [[c]]

/-- `s.split('\n')`. -/
def splitLines (s : JsStr) : List JsStr := splitOnPred (fun c => c = '\n') s

/-- `s.split(/[/\\]/)` (path segment split used for basenames). -/
def splitSlash (s : JsStr) : List JsStr :=
  splitOnPred (fun c => c = '/' || c = '\\') s

/-- Collapses every maximal run of whitespace into a single `' '`
(auxiliary step for modelling `split(/\s+/)`). -/
def squeezeWS : JsStr → JsStr
  | [] => []
  | [c] => if c.isWhitespace then [' '] else [c]
  | c :: d :: rest =>
    if c.isWhitespace then
      if d.isWhitespace then squeezeWS (d :: rest)
      else ' ' :: squeezeWS (d :: rest)
    else c :: squeezeWS (d :: rest)

/-- `s.split(/\s+/)`: each maximal whitespace run is one separator. -/
def splitWS (s : JsStr) : List JsStr :=
  splitOnPred (fun c => c = ' ') (squeezeWS s)

/-- `s.trim()`. -/
def jsTrim (s : JsStr) : JsStr :=
  ((s.dropWhile Char.isWhitespace).reverse.dropWhile Char.isWhitespace).reverse

/-- `s.replace(/\r\n/g, '\n')` (global, leftmost, non-overlapping). -/
def replaceCRLF : JsStr → JsStr
  | [] => []
  | [c] => [c]
  | c :: d :: rest =>
    if c = '\r' ∧ d = '\n' then '\n' :: replaceCRLF rest
    else c :: replaceCRLF (d :: rest)

/-- `s.replace(/\n/g, '\r\n')`. -/
def lfToCRLF : JsStr → JsStr
  | [] => []
  | c :: rest => if c = '\n' then '\r' :: '\n' :: lfToCRLF rest else c :: lfToCRLF rest

/-- `s.replace(/\r/g, '\n')` (single-character global replace). -/
def replaceCR (s : JsStr) : JsStr := s.map (fun c => if c = '\r' then '\n' else c)

/-- Whether the string ends with `'\n'` (`s.endsWith('\n')`). -/
def endsWithNL (s : JsStr) : Bool := decide (s.getLast? = some '\n')

/-- `Array.prototype.join('\n')`. -/
def joinLines : List JsStr → JsStr
  | [] => []
  | [l] => l
  | l :: ls => l ++ '\n' :: joinLines ls

/-- JS array indexing `arr[i]` with a possibly negative index
(out-of-range gives `undefined`, modelled as `none`). -/
def jsGetElem (arr : List JsStr) (i : Int) : Option JsStr :=
  if i < 0 then none else arr.get? i.toNat

/-- `Array.prototype.splice(start, deleteCount, ...items)` result, with the
clamping JS applies to a negative / too large `start`. -/
def jsSplice (arr : List JsStr) (start : Int) (deleteCount : Nat)
    (items : List JsStr) : List JsStr :=
  let len : Int := arr.length
  let actualStart : Nat :=
    (if start < 0 then max (len + start) 0 else min start len).toNat
  arr.take actualStart ++ items ++ arr.drop (actualStart + deleteCount)

/-- Decimal rendering of a natural number (for JS template interpolation). -/
def natToStr (n : Nat) : JsStr := Nat.toDigits 10 n

/-! ## Hunk header regular expressions

`parseHunkHeader` uses `/@@ -(\d+)(?:,(\d+))? \+(\d+)(?:,(\d+))? @@/` and
`validateDiffFormat`'s rewrite heuristic uses the stricter
`/@@ -(\d+),(\d+) \+(\d+),(\d+) @@/`.  Both are *searches* (not anchored),
and on these patterns the regex engine's behaviour is deterministic
maximal-munch, which the scanners below implement position by position. -/

/-- Consume a literal pattern from the front; `none` when `s` does not begin with it. -/
def dropLit : JsStr → JsStr → Option JsStr
  | [], s => some s
  | _ :: _, [] => none
  | p :: ps, c :: s => if c = p then dropLit ps s else none

/-- Consume one-or-more digits (maximal munch), returning their value. -/
def digits (s : JsStr) : Option (Nat × JsStr) :=
  match s.takeWhile Char.isDigit with
  | [] => none
  | ds => some (ds.foldl (fun n c => n * 10 + (c.toNat - 48)) 0,
                s.dropWhile Char.isDigit)

/-- The optional `(?:,(\d+))?` group: `some n` when `,digits` is present. -/
def optCount (s : JsStr) : Option Nat × JsStr :=
  match s with
  | ',' :: rest =>
    (match digits rest with
     | some (n, r) => (some n, r)
     | none => (none, ',' :: rest))
  | _ => (none, s)

/-- The four numbers of a hunk header. -/
structure HunkHeader where
  oldStart : Nat
  oldCount : Nat
  newStart : Nat
  newCount : Nat
deriving DecidableEq, Repr

/-- Match the lenient hunk header pattern at the start of `s`
(omitted counts default to 1, as in `parseHunkHeader`). -/
def matchHunkHeaderAt (s : JsStr) : Option HunkHeader :=
  match dropLit ("@@ -".data) s with
  | none => none
  | some s1 =>
    match digits s1 with
    | none => none
    | some (a, s2) =>
      match optCount s2 with
      | (ac, s3) =>
        match dropLit (" +".data) s3 with
        | none => none
        | some s4 =>
          match digits s4 with
          | none => none
          | some (b, s5) =>
            match optCount s5 with
            | (bc, s6) =>
              match dropLit (" @@".data) s6 with
              | none => none
              | some _ => some ⟨a, ac.getD 1, b, bc.getD 1⟩

/-- Search the lenient hunk header pattern anywhere in `s`
(leftmost match, like `String.prototype.match`). -/
def searchHunkHeader : JsStr → Option HunkHeader
  | [] => matchHunkHeaderAt []
  | s@(_ :: rest) =>
    match matchHunkHeaderAt s with
    | some h => some h
    | none => searchHunkHeader rest

/-- `parseHunkHeader` of `applyDiff.js`: regex search over the line. -/
def parseHunkHeader (header : JsStr) : Option HunkHeader := searchHunkHeader header

/-- `/@@ -\d+(?:,\d+)? \+\d+(?:,\d+)? @@/.test(diff)` used by the validator. -/
def hunkHeaderTest (diff : JsStr) : Bool := (searchHunkHeader diff).isSome

/-- Match the strict (both counts mandatory) pattern at the start of `s`. -/
def matchStrictHunkAt (s : JsStr) : Option (Nat × Nat × Nat × Nat) :=
  match dropLit ("@@ -".data) s with
  | none => none
  | some s1 =>
    match digits s1 with
    | none => none
    | some (a, s2) =>
      match dropLit (",".data) s2 with
      | none => none
      | some s3 =>
        match digits s3 with
        | none => none
        | some (b, s4) =>
          match dropLit (" +".data) s4 with
          | none => none
          | some s5 =>
            match digits s5 with
            | none => none
            | some (c, s6) =>
              match dropLit (",".data) s6 with
              | none => none
              | some s7 =>
                match digits s7 with
                | none => none
                | some (d, s8) =>
                  match dropLit (" @@".data) s8 with
                  | none => none
                  | some _ => some (a, b, c, d)

/-- Search the strict hunk header pattern anywhere in `s`. -/
def searchStrictHunk (s : JsStr) : Option (Nat × Nat × Nat × Nat) :=
  match matchStrictHunkAt s with
  | some q => some q
  | none =>
    match s with
    | [] => none
    | _ :: rest => searchStrictHunk rest

/-! ## Patch applier (`applyPatch` of `applyDiff.js`) -/

/-- Line change kinds of a hunk body. -/
inductive ChangeType
  | context
  | add
  | remove
deriving DecidableEq, Repr

/-- One line change of a hunk body. -/
structure Change where
  type : ChangeType
  text : JsStr
deriving DecidableEq, Repr

/-- A parsed hunk: header numbers plus its ordered change list. -/
structure Hunk where
  oldStart : Nat
  oldCount : Nat
  newStart : Nat
  newCount : Nat
  changes : List Change
deriving DecidableEq, Repr

/-- `PatchResult` of `applyDiff.js`. -/
structure PatchResult where
  success : Bool
  patchedContent : Option JsStr
  failedHunks : List JsStr
  error : Option JsStr
deriving DecidableEq, Repr

/-- A context-mismatch warning sent to the logging collaborator
(`log('WARN', compose-of-line-number-expected-actual)`); the side channel is
modelled as a returned list instead of a fire-and-forget print. -/
structure Warning where
  line : Int
  expected : JsStr
  actual : JsStr
deriving DecidableEq, Repr

/-- Classification of one diff body line into the current hunk
(the `else if` chain inside `applyPatch`'s parse loop). -/
def addDiffLine (h : Hunk) (line : JsStr) : Hunk :=
  if strStartsWith line ("+".data) && !strStartsWith line ("+++".data) then
    { h with changes := h.changes ++ [⟨ChangeType.add, line.drop 1⟩] }
  else if strStartsWith line ("-".data) && !strStartsWith line ("---".data) then
    { h with changes := h.changes ++ [⟨ChangeType.remove, line.drop 1⟩] }
  else if strStartsWith line (" ".data) then
    { h with changes := h.changes ++ [⟨ChangeType.context, line.drop 1⟩] }
  else if line = [] then
    { h with changes := h.changes ++ [⟨ChangeType.context, []⟩] }
  else h

/-- The hunk-collecting loop of `applyPatch`: `none` when a `@@` line fails
`parseHunkHeader` (the `Invalid hunk header format` exit). -/
def parseHunksLoop : List JsStr → Option Hunk → List Hunk → Option (List Hunk)
  | [], cur, acc => some (acc ++ cur.toList)
  | line :: rest, cur, acc =>
    if strStartsWith line ("@@".data) then
      match parseHunkHeader line with
      | none => none
      | some hd =>
        parseHunksLoop rest
          (some ⟨hd.oldStart, hd.oldCount, hd.newStart, hd.newCount, []⟩)
          (acc ++ cur.toList)
    else
      match cur with
      | none => parseHunksLoop rest none acc
      | some h => parseHunksLoop rest (some (addDiffLine h line)) acc

/-- Parse a raw diff into hunks (split on `'\n'`, then the loop above). -/
def parseHunks (unifiedDiff : JsStr) : Option (List Hunk) :=
  parseHunksLoop (splitLines unifiedDiff) none []

/-- One step of the per-hunk change walk: state is
`(oldIndex, newLines, warnings)`; `result` is the current full line array
read for context verification. -/
def stepChange (result : List JsStr) (st : Int × List JsStr × List Warning)
    (change : Change) : Int × List JsStr × List Warning :=
  match st with
  | (oldIndex, newLines, warns) =>
    match change.type with
    | ChangeType.context =>
      if oldIndex < (result.length : Int) then
        let warns2 :=
          match jsGetElem result oldIndex with
          | some orig =>
            if jsTrim orig ≠ jsTrim change.text then
              warns ++ [⟨oldIndex + 1, jsTrim orig, jsTrim change.text⟩]
            else warns
          | none => warns
        (oldIndex + 1, newLines ++ [change.text], warns2)
      else (oldIndex, newLines ++ [change.text], warns)
    | ChangeType.add => (oldIndex, newLines ++ [change.text], warns)
    | ChangeType.remove => (oldIndex + 1, newLines, warns)

/-- Apply one hunk: walk its changes building the replacement buffer, then
`splice` it over `[oldStart-1, oldStart-1+oldCount)`. -/
def applyOneHunk (result : List JsStr) (h : Hunk) : List JsStr × List Warning :=
  match h.changes.foldl (stepChange result) (((h.oldStart : Int) - 1), [], []) with
  | (_, newLines, warns) =>
    (jsSplice result ((h.oldStart : Int) - 1) h.oldCount newLines, warns)

/-- The `for (let i = hunks.length - 1; i >= 0; i--)` loop: callers pass the
hunk list already reversed. -/
def applyHunksLoop : List Hunk → List JsStr → List Warning →
    List JsStr × List Warning
  | [], result, warns => (result, warns)
  | h :: rest, result, warns =>
    match applyOneHunk result h with
    | (r2, w2) => applyHunksLoop rest r2 (warns ++ w2)

/-- The original content as a line array: normalize `\r\n` to `\n`, split on
`'\n'`, pop the final empty element left by a trailing newline. -/
def contentLines (originalContent : JsStr) : List JsStr :=
  let lines := splitLines (replaceCRLF originalContent)
  if endsWithNL (replaceCRLF originalContent) = true ∧ lines.getLast? = some [] then
    lines.dropLast
  else lines

/-- Rebuild the patched text from the final line array: join with `'\n'`,
re-add a trailing newline per the source's condition, restore `\r\n` when the
original contained it. -/
def reconstruct (originalContent : JsStr) (result : List JsStr) : JsStr :=
  let f0 := joinLines result
  let f1 :=
    if endsWithNL (replaceCRLF originalContent) = true ∨ 0 < f0.length then
      f0 ++ ['\n']
    else f0
  if strContains originalContent ("\r\n".data) then lfToCRLF f1 else f1

/-- `applyPatch` of `applyDiff.js`, with the warning side channel kept. -/
def applyPatchWarn (originalContent unifiedDiff : JsStr) :
    PatchResult × List Warning :=
  match parseHunks unifiedDiff with
  | none =>
    (⟨false, none, ["Invalid hunk header".data],
      some ("Invalid hunk header format".data)⟩, [])
  | some hunks =>
    if hunks = [] then
      (⟨false, none, [], some ("No valid hunks found in diff".data)⟩, [])
    else
      match applyHunksLoop hunks.reverse (contentLines originalContent) [] with
      | (result, warns) =>
        (⟨true, some (reconstruct originalContent result), [], none⟩, warns)

/-- `applyPatch` as exported (warnings go to the logging collaborator). -/
def applyPatch (originalContent unifiedDiff : JsStr) : PatchResult :=
  (applyPatchWarn originalContent unifiedDiff).1

/-! ## Diff format validator (`validateDiffFormat` of the LLM module) -/

/-- `validateDiffFormat`'s return value `{valid, error}`. -/
structure ValidateResult where
  valid : Bool
  error : Option JsStr
deriving DecidableEq, Repr

/-- `'Diff is empty or not a string'`. -/
def errEmpty : JsStr := "Diff is empty or not a string".data

/-- `'REFUSE: LLM refused to make changes'`. -/
def refuseMsg : JsStr := "REFUSE: LLM refused to make changes".data

/-- `'Missing unified diff headers (--- and +++)'`. -/
def errMissingHeaders : JsStr := "Missing unified diff headers (--- and +++)".data

/-- `'Invalid or missing hunk header (expected @@ -N,N +N,N @@)'`. -/
def errMissingHunk : JsStr :=
  "Invalid or missing hunk header (expected @@ -N,N +N,N @@)".data

/-- The interpolated multi-file rejection message. -/
def errMultiFile (m p : Nat) : JsStr :=
  "Invalid diff: expected exactly 1 file, found ".data ++ natToStr m ++
  " --- headers and ".data ++ natToStr p ++ " +++ headers".data

/-- `'Could not parse filenames from diff headers'`. -/
def errNoFilenames : JsStr := "Could not parse filenames from diff headers".data

/-- The interpolated header-mismatch (rename) message. -/
def errRename (a b : JsStr) : JsStr :=
  "Diff headers mismatch: --- ".data ++ a ++ " vs +++ ".data ++ b

/-- The interpolated target-mismatch message. -/
def errTarget (t g : JsStr) : JsStr :=
  "Diff target mismatch: expected ".data ++ t ++ ", got ".data ++ g

/-- `'Full-file deletion detected. Use --allow-rewrite to permit.'`. -/
def errFullDeletion : JsStr :=
  "Full-file deletion detected. Use --allow-rewrite to permit.".data

/-- The interpolated suspicious-full-rewrite message. -/
def errSuspicious (d a : Nat) : JsStr :=
  "Suspicious full rewrite: ".data ++ natToStr d ++ " deletions, ".data ++
  natToStr a ++ " additions. Use --allow-rewrite to permit.".data

/-- `'Failed to create backup - aborting for safety'`. -/
def errBackup : JsStr := "Failed to create backup - aborting for safety".data

/-- `extractFilename` of the validator: token after the header marker with an
optional `a/` or `b/` stripped; `none` when the header has no second token. -/
def extractFilename (header : JsStr) : Option JsStr :=
  match splitWS header with
  | _ :: p1 :: _ =>
    some (if strStartsWith p1 ("a/".data) || strStartsWith p1 ("b/".data)
          then p1.drop 2 else p1)
  | _ => none

/-- JS falsiness of the extracted filename (`null` or the empty string). -/
def optStrFalsy : Option JsStr → Bool
  | none => true
  | some [] => true
  | some (_ :: _) => false

/-- The full-rewrite loop over the `@@` lines (first triggered error wins;
`lines` is the whole diff's line list, used for the deletion/addition
counts). -/
def rewriteCheck (lines : List JsStr) : List JsStr → Option JsStr
  | [] => none
  | hunk :: rest =>
    match searchStrictHunk hunk with
    | some (_, oldCount, _, newCount) =>
      if 0 < oldCount ∧ newCount = 0 then some errFullDeletion
      else if 10 < oldCount ∧ 10 < newCount then
        if 0 < (lines.filter (fun l =>
              strStartsWith l ("-".data) && !strStartsWith l ("---".data))).length ∧
           0 < (lines.filter (fun l =>
              strStartsWith l ("+".data) && !strStartsWith l ("+++".data))).length ∧
           20 < min
             (lines.filter (fun l =>
                strStartsWith l ("-".data) && !strStartsWith l ("---".data))).length
             (lines.filter (fun l =>
                strStartsWith l ("+".data) && !strStartsWith l ("+++".data))).length then
          some (errSuspicious
            (lines.filter (fun l =>
               strStartsWith l ("-".data) && !strStartsWith l ("---".data))).length
            (lines.filter (fun l =>
               strStartsWith l ("+".data) && !strStartsWith l ("+++".data))).length)
        else rewriteCheck lines rest
      else rewriteCheck lines rest
    | none => rewriteCheck lines rest

/-- The validator's tail: skip the heuristics entirely when
`allowFullRewrite` is set, otherwise run the loop above. -/
def finalRewrite (diff : JsStr) (allowFullRewrite : Bool) : ValidateResult :=
  if allowFullRewrite then ⟨true, none⟩
  else
    match rewriteCheck (splitLines diff)
        ((splitLines diff).filter (fun l => strStartsWith l ("@@".data))) with
    | some e => ⟨false, some e⟩
    | none => ⟨true, none⟩

/-- The `--- `-header lines of the diff (`minusHeaders` in the source). -/
def minusHeaders (diff : JsStr) : List JsStr :=
  (splitLines diff).filter (fun l => strStartsWith l ("--- ".data))

/-- The `+++ `-header lines of the diff (`plusHeaders` in the source). -/
def plusHeaders (diff : JsStr) : List JsStr :=
  (splitLines diff).filter (fun l => strStartsWith l ("+++ ".data))

/-- `minusFile`: filename extracted from `minusHeaders[0]` (the validator
reads index 0 after checking the length is exactly 1). -/
def minusFile (diff : JsStr) : Option JsStr :=
  extractFilename ((minusHeaders diff).headD [])

/-- `plusFile`: filename extracted from `plusHeaders[0]`. -/
def plusFile (diff : JsStr) : Option JsStr :=
  extractFilename ((plusHeaders diff).headD [])

/-- `targetFile.split(/[/\\]/).pop()`. -/
def targetBasename (t : JsStr) : JsStr := ((splitSlash t).getLast?).getD []

/-- `validateDiffFormat(diff, targetFile, {allowFullRewrite})`.  The JS
`!diff || typeof diff !== 'string'` guard is modelled as the empty-string
test (the only falsy string). -/
def validateDiffFormat (diff : JsStr) (targetFile : Option JsStr)
    (allowFullRewrite : Bool) : ValidateResult :=
  if diff = [] then ⟨false, some errEmpty⟩
  else if jsTrim diff = ("NO_CHANGES".data) then ⟨false, some ("NO_CHANGES".data)⟩
  else if jsTrim diff = ("REFUSE".data) then ⟨false, some refuseMsg⟩
  else if strStartsWith (jsTrim diff) ("ERROR:".data) then ⟨false, some (jsTrim diff)⟩
  else if !(strContains diff ("---".data) && strContains diff ("+++".data)) then
    ⟨false, some errMissingHeaders⟩
  else if !hunkHeaderTest diff then ⟨false, some errMissingHunk⟩
  else if (minusHeaders diff).length ≠ 1 ∨ (plusHeaders diff).length ≠ 1 then
    ⟨false, some (errMultiFile (minusHeaders diff).length (plusHeaders diff).length)⟩
  else if optStrFalsy (minusFile diff) || optStrFalsy (plusFile diff) then
    ⟨false, some errNoFilenames⟩
  else if minusFile diff ≠ plusFile diff then
    ⟨false, some (errRename ((minusFile diff).getD []) ((plusFile diff).getD []))⟩
  else
    match targetFile with
    | some t =>
      if minusFile diff ≠ some (targetBasename t) ∧
         plusFile diff ≠ some (targetBasename t) then
        ⟨false, some (errTarget (targetBasename t) ((minusFile diff).getD []))⟩
      else finalRewrite diff allowFullRewrite
    | none => finalRewrite diff allowFullRewrite

/-! ## Transactional file mutator (`applyDiffToFile` of `applyDiff.js`)

The Node filesystem is modelled as a map from paths to contents
(`FsState`), plus an environment `Env` fixing the outcome of each fallible
primitive for this invocation (`copyOk`, `writeOk`, `readOk`), `path.resolve`
(`resolve`; `applyDiffToFile` resolves once and hands absolute paths to the
I/O layer, where resolution is idempotent), and `Date.now()` (`nowMillis`).
A failed copy/write may leave arbitrary content at its destination
(`copyFailContent` / `writeFailContent`; `none` = destination untouched).
Every primitive also emits an `FsEvent` so that ordering properties
("backup strictly precedes any mutation") are statable on the trace. -/

/-- The filesystem: path to content (`none` = no such file). -/
abbrev FsState := JsStr → Option JsStr

/-- Point update of the filesystem. -/
def fsUpdate (fs : FsState) (p : JsStr) (v : Option JsStr) : FsState :=
  fun q => if q = p then v else fs q

/-- The outcome environment of one `applyDiffToFile` invocation. -/
structure Env where
  resolve : JsStr → JsStr
  readOk : Bool
  readErr : JsStr
  copyOk : JsStr → JsStr → Bool
  copyFailContent : JsStr → Option JsStr
  writeOk : Bool
  writeErr : JsStr
  writeFailContent : Option JsStr
  nowMillis : Nat

/-- One observable I/O action on the filesystem. -/
inductive FsEvent
  | readEv (p : JsStr) (ok : Bool)
  | copyEv (src dst : JsStr) (ok : Bool)
  | writeEv (p : JsStr) (ok : Bool)
deriving DecidableEq, Repr

/-- Whether the event can change the file at `p` (a write to `p`, or a copy
whose destination is `p`). -/
def mutatesPath (e : FsEvent) (p : JsStr) : Bool :=
  match e with
  | FsEvent.writeEv q _ => decide (q = p)
  | FsEvent.copyEv _ dst _ => decide (dst = p)
  | FsEvent.readEv _ _ => false

/-- Whether the event is a file write (`fs.writeFileSync`). -/
def FsEvent.isWrite : FsEvent → Bool
  | FsEvent.writeEv _ _ => true
  | _ => false

/-- `io.js` read normalization: strip a UTF-8 BOM, then `\r\n` → `\n`,
then bare `\r` → `\n`. -/
def readNormalize (raw : JsStr) : JsStr :=
  replaceCR (replaceCRLF
    (match raw with
     | c :: rest => if c.toNat = 0xFEFF then rest else c :: rest
     | [] => []))

/-- `io.js` write normalization: `\r\n` → `\n`, then bare `\r` → `\n`. -/
def writeNormalize (content : JsStr) : JsStr := replaceCR (replaceCRLF content)

/-- `fileExists` of `io.js`. -/
def fileExists (fs : FsState) (p : JsStr) : Bool := (fs p).isSome

/-- `readFileUTF8` of `io.js`: `none` models the `{success:false}` branch. -/
def readFileUTF8 (env : Env) (fs : FsState) (p : JsStr) : Option JsStr × FsEvent :=
  match fs p with
  | some raw =>
    if env.readOk then (some (readNormalize raw), FsEvent.readEv p true)
    else (none, FsEvent.readEv p false)
  | none => (none, FsEvent.readEv p false)

/-- `copyFileUTF8` of `io.js` (`fs.copyFileSync`: a raw byte copy); success
needs the environment's consent and an existing source.  A failed copy may
leave `copyFailContent` at the destination. -/
def copyFileUTF8 (env : Env) (fs : FsState) (src dst : JsStr) :
    Bool × FsState × FsEvent :=
  if env.copyOk src dst && (fs src).isSome then
    (true, fsUpdate fs dst (fs src), FsEvent.copyEv src dst true)
  else
    (false,
     (match env.copyFailContent dst with
      | some g => fsUpdate fs dst (some g)
      | none => fs),
     FsEvent.copyEv src dst false)

/-- `writeFileUTF8` of `io.js`.  A failed write may leave
`writeFailContent` at the target. -/
def writeFileUTF8 (env : Env) (fs : FsState) (p content : JsStr) :
    Bool × FsState × FsEvent :=
  if env.writeOk then
    (true, fsUpdate fs p (some (writeNormalize content)), FsEvent.writeEv p true)
  else
    (false,
     (match env.writeFailContent with
      | some g => fsUpdate fs p (some g)
      | none => fs),
     FsEvent.writeEv p false)

/-- The backup path `createBackup` selects: `<file>.bak`, or the
timestamped variant when that already exists. -/
def backupTarget (env : Env) (fs : FsState) (filePath : JsStr) : JsStr :=
  if fileExists fs (filePath ++ (".bak".data)) then
    filePath ++ ('.' :: natToStr env.nowMillis) ++ (".bak".data)
  else filePath ++ (".bak".data)

/-- `createBackup` of `applyDiff.js`: copy the file to the backup target;
`none` on copy failure. -/
def createBackup (env : Env) (fs : FsState) (filePath : JsStr) :
    Option JsStr × FsState × FsEvent :=
  match copyFileUTF8 env fs filePath (backupTarget env fs filePath) with
  | (true, fs2, ev) => (some (backupTarget env fs filePath), fs2, ev)
  | (false, fs2, ev) => (none, fs2, ev)

/-- `restoreFromBackup(filePath, backupPath)` of `applyDiff.js`. -/
def restoreFromBackup (env : Env) (fs : FsState) (filePath backupPath : JsStr) :
    Bool × FsState × FsEvent :=
  copyFileUTF8 env fs backupPath filePath

/-- `ApplyResult` of `applyDiff.js`. -/
structure ApplyResult where
  success : Bool
  backupPath : Option JsStr
  error : Option JsStr
deriving DecidableEq, Repr

/-- `applyDiffToFile` of `applyDiff.js`: resolve, check existence, read,
back up, patch in memory, write, roll back on write failure.  Returns the
result, the final filesystem, and the I/O event trace. -/
def applyDiffToFile (env : Env) (fs : FsState) (filePath unifiedDiff : JsStr) :
    ApplyResult × FsState × List FsEvent :=
  if fileExists fs (env.resolve filePath) = false then
    (⟨false, none, some (("File not found: ".data) ++ env.resolve filePath)⟩,
     fs, [])
  else
    match readFileUTF8 env fs (env.resolve filePath) with
    | (none, ev1) =>
      (⟨false, none, some (("Failed to read file: ".data) ++ env.readErr)⟩,
       fs, [ev1])
    | (some originalContent, ev1) =>
      match createBackup env fs (env.resolve filePath) with
      | (none, fs1, ev2) => (⟨false, none, some errBackup⟩, fs1, [ev1, ev2])
      | (some backupPath, fs1, ev2) =>
        if (applyPatch originalContent unifiedDiff).success = false then
          (⟨false, some backupPath, (applyPatch originalContent unifiedDiff).error⟩,
           fs1, [ev1, ev2])
        else
          match writeFileUTF8 env fs1 (env.resolve filePath)
              (((applyPatch originalContent unifiedDiff).patchedContent).getD []) with
          | (true, fs2, ev3) =>
            (⟨true, some backupPath, none⟩, fs2, [ev1, ev2, ev3])
          | (false, fs2, ev3) =>
            match restoreFromBackup env fs2 (env.resolve filePath) backupPath with
            | (true, fs3, ev4) =>
              (⟨false, some backupPath,
                some (("Write failed: ".data) ++ env.writeErr ++ (". Rolled back.".data))⟩,
               fs3, [ev1, ev2, ev3, ev4])
            | (false, fs3, ev4) =>
              (⟨false, some backupPath,
                some (("Write failed: ".data) ++ env.writeErr ++ (". ROLLBACK FAILED!".data))⟩,
               fs3, [ev1, ev2, ev3, ev4])

/-! ## Concrete inputs used by the example theorems below -/

/-- The spec's scenario original: `"a\nb\nc\n"`. -/
def exOriginal : JsStr := "a\nb\nc\n".data

/-- The scenario hunk without a trailing newline. -/
def exDiffBare : JsStr := "@@ -2,1 +2,1 @@\n-b\n+B".data

/-- The scenario hunk exactly as the spec quotes it (trailing `\n`). -/
def exDiffNl : JsStr := "@@ -2,1 +2,1 @@\n-b\n+B\n".data

/-- The scenario hunk with `\r\n` line endings. -/
def exDiffCRLF : JsStr := "@@ -2,1 +2,1 @@\r\n-b\r\n+B\r\n".data

/-- A well-formed single-file diff the validator accepts. -/
def exValidDiff : JsStr := "--- a/f.js\n+++ b/f.js\n@@ -1,1 +1,1 @@\n-x\n+y".data

/-- Full deletion of a 1-line file, counts written explicitly. -/
def c6SingleDeletion : JsStr := "--- a/f.js\n+++ b/f.js\n@@ -1,1 +1,0 @@\n-x".data

/-- Full deletion of a 1-line file with the old count omitted
(`@@ -1 +1,0 @@`): the hunk parser defaults `oldCount` to 1, but the
rewrite heuristic's strict regex does not match the header. -/
def c6NoCommaDeletion : JsStr := "--- a/f.js\n+++ b/f.js\n@@ -1 +1,0 @@\n-x".data

/-- An environment in which every I/O operation succeeds except the final
write, and rollback succeeds: the C1 scenario. -/
def envRollback : Env where
  resolve := fun p => p
  readOk := true
  readErr := []
  copyOk := fun _ _ => true
  copyFailContent := fun _ => none
  writeOk := false
  writeErr := "disk full".data
  writeFailContent := some ("garbage".data)
  nowMillis := 0

/-- An environment in which every I/O operation succeeds. -/
def envHappy : Env := { envRollback with writeOk := true }

/-- An environment in which every copy fails: backup creation fails. -/
def envNoCopy : Env := { envRollback with copyOk := fun _ _ => false, writeOk := true }

/-- A filesystem holding exactly one file, `f.txt`, with content `"a\n"`. -/
def fsOne : FsState := fun q => if q = ("f.txt".data) then some ("a\n".data) else none

/-- A diff applying cleanly to `"a\n"`. -/
def exDiffOnA : JsStr := "@@ -1,1 +1,1 @@\n-a\n+B".data

/-- No bare line feed: auxiliary scan carrying the previous character. -/
def noBareLFAux : Char → JsStr → Bool
  | _, [] => true
  | prev, c :: rest => (!(c == '\n') || prev == '\r') && noBareLFAux c rest

/-- Every `'\n'` in the string is immediately preceded by `'\r'` (i.e. the
string has no bare LF line ending). -/
def noBareLF : JsStr → Bool
  | [] => true
  | c :: rest => !(c == '\n') && noBareLFAux c rest

/-! ## Helper lemmas -/

/-- Appending something nonempty changes a list. -/
theorem append_right_ne (l r : JsStr) (h : r ≠ []) : l ++ r ≠ l := by
  intro e
  have hlen := congrArg List.length e
  rw [List.length_append] at hlen
  exact h (List.length_eq_zero.mp (by omega))

/-- The chosen backup path is never the file itself. -/
theorem backupTarget_ne (env : Env) (fs : FsState) (p : JsStr) :
    backupTarget env fs p ≠ p := by
  unfold backupTarget
  split
  · rw [List.append_assoc]
    exact append_right_ne _ _ (by simp)
  · exact append_right_ne _ _ (by decide)

/-- Two lists with different heads differ. -/
theorem ne_of_head {a b : JsStr} (h : a.head? ≠ b.head?) : a ≠ b :=
  fun e => h (congrArg List.head? e)

/-- A string starting with `c :: ps` has head `c`. -/
theorem strStartsWith_head {s : JsStr} {c : Char} {ps : JsStr}
    (h : strStartsWith s (c :: ps) = true) : s.head? = some c := by
  cases s with
  | nil => exact absurd h (by simp [strStartsWith])
  | cons a s' =>
    unfold strStartsWith at h
    split at h
    · simp_all
    · exact absurd h (by simp)

/-- Heads of the interpolated validator messages. -/
theorem errMultiFile_head (m p : Nat) : (errMultiFile m p).head? = some 'I' := rfl

/-- Head of the rename message. -/
theorem errRename_head (a b : JsStr) : (errRename a b).head? = some 'D' := rfl

/-- Head of the target-mismatch message. -/
theorem errTarget_head (t g : JsStr) : (errTarget t g).head? = some 'D' := rfl

/-- Head of the suspicious-rewrite message. -/
theorem errSuspicious_head (d a : Nat) : (errSuspicious d a).head? = some 'S' := rfl

/-- Every error the rewrite loop can produce. -/
theorem rewriteCheck_error_shape (lines : List JsStr) :
    ∀ hdrs e, rewriteCheck lines hdrs = some e →
      e = errFullDeletion ∨ ∃ d a, e = errSuspicious d a := by
  intro hdrs
  induction hdrs with
  | nil => intro e h; exact absurd h (by simp [rewriteCheck])
  | cons hd rest ih =>
    intro e h
    unfold rewriteCheck at h
    split at h
    · split at h
      · exact Or.inl (Option.some.inj h).symm
      · split at h
        · split at h
          · exact Or.inr ⟨_, _, (Option.some.inj h).symm⟩
          · exact ih e h
        · exact ih e h
    · exact ih e h

/-- Errors produced by `finalRewrite`'s failure branch. -/
theorem finalRewrite_error (diff : JsStr) (allow : Bool) (m : JsStr)
    (h : finalRewrite diff allow = ⟨false, some m⟩) :
    m = errFullDeletion ∨ ∃ d a, m = errSuspicious d a := by
  unfold finalRewrite at h
  split at h
  · exact absurd h (by simp)
  · split at h
    · have h2 := congrArg ValidateResult.error h
      simp at h2
      refine rewriteCheck_error_shape (splitLines diff)
        ((splitLines diff).filter (fun l => strStartsWith l ("@@".data))) m ?_
      rw [← h2]; assumption
    · exact absurd h (by simp)

/-! ## Claim C10 -/

/-- Claim C10 (confirmed): for every input whose trimmed text begins with `ERROR:`,
`validateDiffFormat` returns `valid = false` with the trimmed text itself
as the error, before any header, hunk or rewrite check. -/
theorem validateDiffFormat_error_passthrough :
    ∀ (diff : JsStr) (tf : Option JsStr) (allow : Bool),
      strStartsWith (jsTrim diff) ("ERROR:".data) = true →
      validateDiffFormat diff tf allow = ⟨false, some (jsTrim diff)⟩ := by
  intro diff tf allow h
  have hhead : (jsTrim diff).head? = some 'E' := strStartsWith_head h
  have hne : ¬ diff = [] := by
    intro e; rw [e] at h; exact absurd h (by decide)
  have h1 : ¬ jsTrim diff = ("NO_CHANGES".data) := by
    intro e; rw [e] at hhead; exact absurd hhead (by decide)
  have h2 : ¬ jsTrim diff = ("REFUSE".data) := by
    intro e; rw [e] at hhead; exact absurd hhead (by decide)
  unfold validateDiffFormat
  rw [if_neg hne, if_neg h1, if_neg h2, if_pos h]

/-- Witness for C10 at a concrete input. -/
theorem validateDiffFormat_error_passthrough_witness :
    validateDiffFormat ("ERROR: boom".data) none false =
      ⟨false, some (jsTrim ("ERROR: boom".data))⟩ :=
  validateDiffFormat_error_passthrough ("ERROR: boom".data) none false (by decide)

/-- `finalRewrite` never produces an error starting with `'N'` or `'R'`. -/
theorem finalRewrite_ne_sentinel (diff : JsStr) (allow : Bool) (m : JsStr)
    (hm : m.head? = some 'N' ∨ m.head? = some 'R') :
    finalRewrite diff allow ≠ ⟨false, some m⟩ := by
  intro h
  rcases finalRewrite_error diff allow m h with he | ⟨d, a, he⟩
  · rw [he] at hm
    rcases hm with hm | hm <;> exact absurd hm (by decide)
  · rw [he, errSuspicious_head d a] at hm
    rcases hm with hm | hm <;> exact absurd hm (by simp)

/-- The validator returns the `NO_CHANGES` outcome exactly for inputs that
trim to `NO_CHANGES`. -/
theorem validate_eq_noChanges_iff (diff : JsStr) (tf : Option JsStr) (allow : Bool) :
    validateDiffFormat diff tf allow = ⟨false, some ("NO_CHANGES".data)⟩ ↔
      jsTrim diff = ("NO_CHANGES".data) := by
  constructor
  · intro h
    unfold validateDiffFormat at h
    split at h
    · exact absurd h (by decide)
    · split at h
      · assumption
      · split at h
        · exact absurd h (by decide)
        · split at h
          · rename_i hE
            have h2 := congrArg ValidateResult.error h
            simp at h2
            rw [h2] at hE
            exact absurd hE (by decide)
          · split at h
            · exact absurd h (by decide)
            · split at h
              · exact absurd h (by decide)
              · split at h
                · have h2 := congrArg ValidateResult.error h
                  simp at h2
                  exact absurd h2 (ne_of_head (by rw [errMultiFile_head]; decide))
                · split at h
                  · exact absurd h (by decide)
                  · split at h
                    · have h2 := congrArg ValidateResult.error h
                      simp at h2
                      exact absurd h2 (ne_of_head (by rw [errRename_head]; decide))
                    · split at h
                      · split at h
                        · have h2 := congrArg ValidateResult.error h
                          simp at h2
                          exact absurd h2 (ne_of_head (by rw [errTarget_head]; decide))
                        · exact absurd h (finalRewrite_ne_sentinel _ _ _ (Or.inl rfl))
                      · exact absurd h (finalRewrite_ne_sentinel _ _ _ (Or.inl rfl))
  · intro h
    have hne : ¬ diff = [] := by
      intro e; rw [e] at h; exact absurd h (by decide)
    unfold validateDiffFormat
    rw [if_neg hne, if_pos h]

/-- The validator returns the model-refusal outcome exactly for inputs that
trim to `REFUSE`. -/
theorem validate_eq_refuse_iff (diff : JsStr) (tf : Option JsStr) (allow : Bool) :
    validateDiffFormat diff tf allow = ⟨false, some refuseMsg⟩ ↔
      jsTrim diff = ("REFUSE".data) := by
  constructor
  · intro h
    unfold validateDiffFormat at h
    split at h
    · exact absurd h (by decide)
    · split at h
      · exact absurd h (by decide)
      · split at h
        · assumption
        · split at h
          · rename_i hE
            have h2 := congrArg ValidateResult.error h
            simp at h2
            have hhead := strStartsWith_head hE
            rw [h2] at hhead
            exact absurd hhead (by decide)
          · split at h
            · exact absurd h (by decide)
            · split at h
              · exact absurd h (by decide)
              · split at h
                · have h2 := congrArg ValidateResult.error h
                  simp at h2
                  exact absurd h2 (ne_of_head (by rw [errMultiFile_head]; decide))
                · split at h
                  · exact absurd h (by decide)
                  · split at h
                    · have h2 := congrArg ValidateResult.error h
                      simp at h2
                      exact absurd h2 (ne_of_head (by rw [errRename_head]; decide))
                    · split at h
                      · split at h
                        · have h2 := congrArg ValidateResult.error h
                          simp at h2
                          exact absurd h2 (ne_of_head (by rw [errTarget_head]; decide))
                        · exact absurd h (finalRewrite_ne_sentinel _ _ _ (Or.inr rfl))
                      · exact absurd h (finalRewrite_ne_sentinel _ _ _ (Or.inr rfl))
  · intro h
    have hne : ¬ diff = [] := by
      intro e; rw [e] at h; exact absurd h (by decide)
    have hno : ¬ jsTrim diff = ("NO_CHANGES".data) := by
      rw [h]; decide
    unfold validateDiffFormat
    rw [if_neg hne, if_neg hno, if_pos h]

/-! ## Claim C7 -/

/-- Claim C7 (corrected): `validateDiffFormat` returns the distinct
no-changes outcome (`valid = false`, error exactly `NO_CHANGES`, never a
generic format error) exactly when its input *trims* to `NO_CHANGES`, and
the distinct model-refusal failure (error `REFUSE: LLM refused to make
changes`, distinguishable from every other error) exactly when its input
trims to `REFUSE`. -/
theorem validateDiffFormat_sentinels :
    ∀ (diff : JsStr) (tf : Option JsStr) (allow : Bool),
      (validateDiffFormat diff tf allow = ⟨false, some ("NO_CHANGES".data)⟩ ↔
         jsTrim diff = ("NO_CHANGES".data)) ∧
      (validateDiffFormat diff tf allow = ⟨false, some refuseMsg⟩ ↔
         jsTrim diff = ("REFUSE".data)) ∧
      ("NO_CHANGES".data : JsStr) ≠ refuseMsg :=
  fun diff tf allow =>
    ⟨validate_eq_noChanges_iff diff tf allow,
     validate_eq_refuse_iff diff tf allow, by decide⟩

/-- Counterexample to C7 as stated: an input that is *not* the exact text
`NO_CHANGES` (it has a leading space) still yields the no-changes outcome. -/
theorem validateDiffFormat_sentinels_cex :
    validateDiffFormat (" NO_CHANGES".data) none false =
      ⟨false, some ("NO_CHANGES".data)⟩ ∧
    (" NO_CHANGES".data : JsStr) ≠ ("NO_CHANGES".data) := by decide

/-- A non-falsy extracted filename is a nonempty string. -/
theorem optStrFalsy_false {o : Option JsStr} (h : optStrFalsy o = false) :
    ∃ f, o = some f ∧ f ≠ [] := by
  match o with
  | none => exact absurd h (by decide)
  | some [] => exact absurd h (by decide)
  | some (c :: l) => exact ⟨c :: l, rfl, by simp⟩

/-! ## Claim C8 -/

/-- Claim C8 (confirmed): `validateDiffFormat` accepts a diff only if the
diff has exactly one line starting with `--- ` and exactly one starting
with `+++ `, and the two header filenames, after stripping an optional
`a/` or `b/`, are identical (and nonempty); hence no diff with two distinct
`--- ` filenames and no rename is ever accepted. -/
theorem validateDiffFormat_single_file :
    ∀ (diff : JsStr) (tf : Option JsStr) (allow : Bool),
      (validateDiffFormat diff tf allow).valid = true →
      ∃ mh ph f,
        minusHeaders diff = [mh] ∧ plusHeaders diff = [ph] ∧
        extractFilename mh = some f ∧ extractFilename ph = some f ∧ f ≠ [] := by
  intro diff tf allow h
  unfold validateDiffFormat at h
  split at h
  · exact absurd h (by simp)
  · split at h
    · exact absurd h (by simp)
    · split at h
      · exact absurd h (by simp)
      · split at h
        · exact absurd h (by simp)
        · split at h
          · exact absurd h (by simp)
          · split at h
            · exact absurd h (by simp)
            · split at h
              · exact absurd h (by simp)
              · rename_i hlen
                push_neg at hlen
                rcases List.length_eq_one.mp hlen.1 with ⟨mh, hm⟩
                rcases List.length_eq_one.mp hlen.2 with ⟨ph, hp⟩
                split at h
                · exact absurd h (by simp)
                · rename_i hfalsy
                  simp only [Bool.or_eq_true, not_or] at hfalsy
                  split at h
                  · exact absurd h (by simp)
                  · rename_i hrne
                    have heq : minusFile diff = plusFile diff := not_ne_iff.mp hrne
                    rcases optStrFalsy_false
                        (Bool.not_eq_true _ ▸ hfalsy.1) with ⟨f, hf, hfne⟩
                    have hmf : minusFile diff = extractFilename mh := by
                      rw [minusFile, hm]; rfl
                    have hpf : plusFile diff = extractFilename ph := by
                      rw [plusFile, hp]; rfl
                    refine ⟨mh, ph, f, hm, hp, ?_, ?_, hfne⟩
                    · rw [← hmf]; exact hf
                    · rw [← hpf, ← heq]; exact hf

/-- Witness for C8: the accepted diff `exValidDiff` has the promised
single-file shape. -/
theorem validateDiffFormat_single_file_witness :
    ∃ mh ph f,
      minusHeaders exValidDiff = [mh] ∧ plusHeaders exValidDiff = [ph] ∧
      extractFilename mh = some f ∧ extractFilename ph = some f ∧ f ≠ [] :=
  validateDiffFormat_single_file exValidDiff none false (by decide)

/-- When a diff passes every check with `allowFullRewrite` set, validating
it without that option runs exactly the rewrite heuristics. -/
theorem validate_toggle (diff : JsStr) (tf : Option JsStr)
    (h : (validateDiffFormat diff tf true).valid = true) :
    validateDiffFormat diff tf false = finalRewrite diff false := by
  unfold validateDiffFormat at h ⊢
  by_cases c1 : diff = []
  · rw [if_pos c1] at h; exact absurd h (by simp)
  rw [if_neg c1] at h ⊢
  by_cases c2 : jsTrim diff = ("NO_CHANGES".data)
  · rw [if_pos c2] at h; exact absurd h (by simp)
  rw [if_neg c2] at h ⊢
  by_cases c3 : jsTrim diff = ("REFUSE".data)
  · rw [if_pos c3] at h; exact absurd h (by simp)
  rw [if_neg c3] at h ⊢
  by_cases c4 : strStartsWith (jsTrim diff) ("ERROR:".data) = true
  · rw [if_pos c4] at h; exact absurd h (by simp)
  rw [if_neg c4] at h ⊢
  by_cases c5 : (!(strContains diff ("---".data) && strContains diff ("+++".data))) = true
  · rw [if_pos c5] at h; exact absurd h (by simp)
  rw [if_neg c5] at h ⊢
  by_cases c6 : (!hunkHeaderTest diff) = true
  · rw [if_pos c6] at h; exact absurd h (by simp)
  rw [if_neg c6] at h ⊢
  by_cases c7 : (minusHeaders diff).length ≠ 1 ∨ (plusHeaders diff).length ≠ 1
  · rw [if_pos c7] at h; exact absurd h (by simp)
  rw [if_neg c7] at h ⊢
  by_cases c8 : (optStrFalsy (minusFile diff) || optStrFalsy (plusFile diff)) = true
  · rw [if_pos c8] at h; exact absurd h (by simp)
  rw [if_neg c8] at h ⊢
  by_cases c9 : minusFile diff ≠ plusFile diff
  · rw [if_pos c9] at h; exact absurd h (by simp)
  rw [if_neg c9] at h ⊢
  rcases tf with _ | t
  · rfl
  · simp only [] at h ⊢
    by_cases c10 : minusFile diff ≠ some (targetBasename t) ∧
        plusFile diff ≠ some (targetBasename t)
    · rw [if_pos c10] at h; exact absurd h (by simp)
    rw [if_neg c10]

/-- The rewrite loop fires on any header list containing a strict-form
hunk header with positive old count and zero new count. -/
theorem rewriteCheck_hit (lines : List JsStr) :
    ∀ hdrs, (∃ l ∈ hdrs, ∃ a b c, searchStrictHunk l = some (a, b, c, 0) ∧ 0 < b) →
      ∃ e, rewriteCheck lines hdrs = some e ∧
        (e = errFullDeletion ∨ ∃ d a2, e = errSuspicious d a2) := by
  intro hdrs
  induction hdrs with
  | nil => rintro ⟨l, hl, _⟩; exact absurd hl (by simp)
  | cons hd rest ih =>
    rintro ⟨l, hl, a, b, c, hsl, hb⟩
    rcases List.mem_cons.mp hl with rfl | hmem
    · unfold rewriteCheck
      simp only [hsl]
      rw [if_pos ⟨hb, trivial⟩]
      exact ⟨errFullDeletion, rfl, Or.inl rfl⟩
    · unfold rewriteCheck
      rcases hhd : searchStrictHunk hd with _ | ⟨a0, b0, c0, d0⟩
      · simp only [hhd]
        exact ih ⟨l, hmem, a, b, c, hsl, hb⟩
      · simp only [hhd]
        by_cases hfd : 0 < b0 ∧ d0 = 0
        · rw [if_pos hfd]
          exact ⟨errFullDeletion, rfl, Or.inl rfl⟩
        · rw [if_neg hfd]
          by_cases hbig : 10 < b0 ∧ 10 < d0
          · rw [if_pos hbig]
            split
            · exact ⟨_, rfl, Or.inr ⟨_, _, rfl⟩⟩
            · exact ih ⟨l, hmem, a, b, c, hsl, hb⟩
          · rw [if_neg hbig]
            exact ih ⟨l, hmem, a, b, c, hsl, hb⟩

/-! ## Claim C6 -/

/-- Claim C6 (corrected): with `allowFullRewrite` false, any diff that
passes the earlier checks (it validates cleanly when the option is set)
and contains a hunk header in the explicit two-count form
`@@ -a,b +c,d @@` with `b > 0` and `d = 0` is rejected — with the
full-deletion error unless an earlier header fires the suspicious-rewrite
error first; and the concrete one-line full deletion `c6SingleDeletion` is
rejected with the full-deletion error exactly when `allowFullRewrite` is
false.  (Headers with an omitted count are not examined by the heuristic:
see the counterexample.) -/
theorem validateDiffFormat_full_deletion :
    (∀ (diff : JsStr) (tf : Option JsStr),
      (validateDiffFormat diff tf true).valid = true →
      (∃ l ∈ (splitLines diff).filter (fun l => strStartsWith l ("@@".data)),
         ∃ a b c, searchStrictHunk l = some (a, b, c, 0) ∧ 0 < b) →
      (validateDiffFormat diff tf false).valid = false ∧
        ((validateDiffFormat diff tf false).error = some errFullDeletion ∨
         ∃ d a2, (validateDiffFormat diff tf false).error = some (errSuspicious d a2))) ∧
    validateDiffFormat c6SingleDeletion none false = ⟨false, some errFullDeletion⟩ ∧
    (validateDiffFormat c6SingleDeletion none true).valid = true := by
  refine ⟨?_, by decide, by decide⟩
  intro diff tf hpass hhit
  rw [validate_toggle diff tf hpass]
  rcases rewriteCheck_hit (splitLines diff) _ hhit with ⟨e, he, hshape⟩
  unfold finalRewrite
  rw [if_neg (by simp), he]
  refine ⟨rfl, ?_⟩
  rcases hshape with h | ⟨d, a2, h⟩
  · exact Or.inl (by rw [h])
  · exact Or.inr ⟨d, a2, by rw [h]⟩

/-- Counterexample to C6 as stated: a diff whose hunk header omits the old
count (`@@ -1 +1,0 @@`) parses — by the hunk parser's own defaulting — to
`oldCount = 1 > 0`, `newCount = 0`, yet the validator accepts it with
`allowFullRewrite` false, because the rewrite heuristic only examines
headers with both counts explicit. -/
theorem validateDiffFormat_full_deletion_cex :
    (validateDiffFormat c6NoCommaDeletion none false).valid = true ∧
    parseHunkHeader ("@@ -1 +1,0 @@".data) = some ⟨1, 1, 1, 0⟩ ∧
    strContains c6NoCommaDeletion ("@@ -1 +1,0 @@".data) = true := by decide

/-- Witness for C6: the general part applied to `c6SingleDeletion`. -/
theorem validateDiffFormat_full_deletion_witness :
    (validateDiffFormat c6SingleDeletion none false).valid = false ∧
      ((validateDiffFormat c6SingleDeletion none false).error = some errFullDeletion ∨
       ∃ d a2, (validateDiffFormat c6SingleDeletion none false).error =
         some (errSuspicious d a2)) :=
  validateDiffFormat_full_deletion.1 c6SingleDeletion none (by decide)
    ⟨("@@ -1,1 +1,0 @@".data), by decide, 1, 1, 1, by decide, by decide⟩

/-- The replacement buffer built by the change walk is exactly the Context
and Add texts, in order (Remove lines contribute nothing). -/
theorem foldl_stepChange_newLines (result : List JsStr) :
    ∀ (changes : List Change) (st : Int × List JsStr × List Warning),
      (changes.foldl (stepChange result) st).2.1 =
        st.2.1 ++ (changes.filter (fun c => c.type ≠ ChangeType.remove)).map
          (fun c => c.text) := by
  intro changes
  induction changes with
  | nil => intro st; simp
  | cons c cs ih =>
    intro st
    rcases st with ⟨i, nl, ws⟩
    rw [List.foldl_cons, ih]
    rcases hct : c.type with _ | _ | _
    · simp only [stepChange, hct]
      split
      · simp [List.filter_cons, hct]
      · simp [List.filter_cons, hct]
    · simp only [stepChange, hct]
      simp [List.filter_cons, hct]
    · simp only [stepChange, hct]
      simp [List.filter_cons, hct]

/-! ## Claim C3 -/

/-- Claim C3 (confirmed): a context line whose trimmed text differs from
the trimmed original line at the expected cursor position makes the walk
emit a warning and continue — the cursor advances, the context text is
still emitted into the replacement buffer, every Context text of a hunk
reaches the spliced output, and no mismatch can make `applyPatch` fail:
whenever the diff parses into a nonempty hunk list, `applyPatch` succeeds
with no error, whatever the original content. -/
theorem applyPatch_context_mismatch_advisory :
    (∀ (result : List JsStr) (oldIndex : Int) (acc : List JsStr)
       (ws : List Warning) (change : Change) (orig : JsStr),
       change.type = ChangeType.context →
       jsGetElem result oldIndex = some orig →
       jsTrim orig ≠ jsTrim change.text →
       stepChange result (oldIndex, acc, ws) change =
         (oldIndex + 1, acc ++ [change.text],
          ws ++ [⟨oldIndex + 1, jsTrim orig, jsTrim change.text⟩])) ∧
    (∀ (originalContent unifiedDiff : JsStr) (hunks : List Hunk),
       parseHunks unifiedDiff = some hunks → hunks ≠ [] →
       (applyPatch originalContent unifiedDiff).success = true ∧
       (applyPatch originalContent unifiedDiff).error = none) ∧
    (∀ (result : List JsStr) (h : Hunk) (c : Change),
       c ∈ h.changes → c.type = ChangeType.context →
       c.text ∈ (applyOneHunk result h).1) := by
  refine ⟨?_, ?_, ?_⟩
  · intro result oldIndex acc ws change orig hctx hget hne
    have h0 : ¬ oldIndex < 0 := by
      intro hlt
      unfold jsGetElem at hget
      rw [if_pos hlt] at hget
      exact absurd hget (by simp)
    have hlt : oldIndex.toNat < result.length := by
      by_contra hge
      unfold jsGetElem at hget
      rw [if_neg h0, List.get?_eq_none.mpr (by omega)] at hget
      exact absurd hget (by simp)
    have hbound : oldIndex < (result.length : Int) := by omega
    simp only [stepChange, hctx]
    rw [if_pos hbound, hget]
    simp [hne]
  · intro originalContent unifiedDiff hunks hp hne
    unfold applyPatch applyPatchWarn
    simp only [hp]
    rw [if_neg hne]
    rcases happ : applyHunksLoop hunks.reverse (contentLines originalContent) []
      with ⟨r, w⟩
    simp
  · intro result h c hmem hctx
    unfold applyOneHunk
    rcases hfold : h.changes.foldl (stepChange result)
        (((h.oldStart : Int) - 1), [], []) with ⟨i2, st2⟩
    rcases st2 with ⟨nl, ws⟩
    have hnl := foldl_stepChange_newLines result h.changes
      (((h.oldStart : Int) - 1), [], [])
    rw [hfold] at hnl
    simp only at hnl
    have hmemnl : c.text ∈ nl := by
      rw [hnl]
      simp only [List.nil_append]
      exact List.mem_map_of_mem _ (List.mem_filter.mpr ⟨hmem, by simp [hctx]⟩)
    simp only [jsSplice]
    exact List.mem_append.mpr (Or.inl (List.mem_append.mpr (Or.inr hmemnl)))

/-- Witness for C3 at concrete inputs. -/
theorem applyPatch_context_mismatch_advisory_witness :
    stepChange [("x".data)] (0, [], []) ⟨ChangeType.context, ("z".data)⟩ =
      (1, [("z".data)], [⟨1, jsTrim ("x".data), jsTrim ("z".data)⟩]) ∧
    ((applyPatch ("a\n".data) exDiffOnA).success = true ∧
     (applyPatch ("a\n".data) exDiffOnA).error = none) ∧
    ("x".data : JsStr) ∈ (applyOneHunk [("y".data)]
      ⟨1, 1, 1, 1, [⟨ChangeType.context, ("x".data)⟩]⟩).1 := by
  refine ⟨?_, ?_, ?_⟩
  · exact applyPatch_context_mismatch_advisory.1 _ 0 [] [] _ _ rfl (by decide) (by decide)
  · exact applyPatch_context_mismatch_advisory.2.1 _ _
      [⟨1, 1, 1, 1, [⟨ChangeType.remove, ("a".data)⟩, ⟨ChangeType.add, ("B".data)⟩]⟩]
      (by decide) (by decide)
  · exact applyPatch_context_mismatch_advisory.2.2 [("y".data)]
      ⟨1, 1, 1, 1, [⟨ChangeType.context, ("x".data)⟩]⟩
      ⟨ChangeType.context, ("x".data)⟩ (by decide) rfl

/-- `lfToCRLF` maps each character independently, so it distributes over
append. -/
theorem lfToCRLF_append (a b : JsStr) :
    lfToCRLF (a ++ b) = lfToCRLF a ++ lfToCRLF b := by
  induction a with
  | nil => simp [lfToCRLF]
  | cons c r ih =>
    by_cases hc : c = '\n'
    · simp [lfToCRLF, hc, ih]
    · simp [lfToCRLF, hc, ih]

/-- The CRLF restoration never produces a bare LF (auxiliary form). -/
theorem noBareLFAux_lfToCRLF (s : JsStr) :
    ∀ prev, noBareLFAux prev (lfToCRLF s) = true := by
  induction s with
  | nil => intro prev; simp [lfToCRLF, noBareLFAux]
  | cons c r ih =>
    intro prev
    by_cases hc : c = '\n'
    · simp [lfToCRLF, hc, noBareLFAux, ih]
    · simp [lfToCRLF, hc, noBareLFAux, ih]

/-- The CRLF restoration never produces a bare LF. -/
theorem noBareLF_lfToCRLF (s : JsStr) : noBareLF (lfToCRLF s) = true := by
  cases s with
  | nil => simp [lfToCRLF, noBareLF]
  | cons c r =>
    by_cases hc : c = '\n'
    · simp [lfToCRLF, hc, noBareLF, noBareLFAux, noBareLFAux_lfToCRLF r]
    · simp [lfToCRLF, hc, noBareLF, noBareLFAux_lfToCRLF r]

/-- The last element of a list with a final singleton appended. -/
theorem getLast_append_singleton (l : JsStr) (a : Char) :
    (l ++ [a]).getLast? = some a := by
  rw [List.getLast?_append_cons]
  rfl

/-- Successful patch output always comes from `reconstruct`. -/
theorem applyPatch_patchedContent (C D p : JsStr)
    (h : (applyPatch C D).patchedContent = some p) : ∃ r, p = reconstruct C r := by
  unfold applyPatch applyPatchWarn at h
  rcases hp : parseHunks D with _ | hunks
  · rw [hp] at h; simp at h
  · rw [hp] at h
    simp only at h
    by_cases hne : hunks = []
    · rw [if_pos hne] at h; simp at h
    · rw [if_neg hne] at h
      rcases happ : applyHunksLoop hunks.reverse (contentLines C) [] with ⟨r, w⟩
      rw [happ] at h
      simp only at h
      exact ⟨r, (Option.some.inj h).symm⟩

/-- Trailing-newline and CRLF facts about every reconstructed output. -/
theorem reconstruct_props (C : JsStr) (r : List JsStr) :
    (endsWithNL (reconstruct C r) = true ↔ reconstruct C r ≠ []) ∧
    (endsWithNL (replaceCRLF C) = true → endsWithNL (reconstruct C r) = true) ∧
    (strContains C ("\r\n".data) = true → noBareLF (reconstruct C r) = true) := by
  unfold reconstruct
  dsimp only
  by_cases hcond : endsWithNL (replaceCRLF C) = true ∨ 0 < (joinLines r).length
  · rw [if_pos hcond]
    by_cases hcr : strContains C ("\r\n".data) = true
    · rw [if_pos hcr]
      have hval : lfToCRLF (joinLines r ++ ['\n']) =
          (lfToCRLF (joinLines r) ++ ['\r']) ++ ['\n'] := by
        rw [lfToCRLF_append, List.append_assoc]; rfl
      have hlast : endsWithNL (lfToCRLF (joinLines r ++ ['\n'])) = true := by
        rw [hval]
        simp [endsWithNL, getLast_append_singleton]
      refine ⟨⟨fun _ => by rw [hval]; simp, fun _ => hlast⟩, fun _ => hlast, fun _ => ?_⟩
      exact noBareLF_lfToCRLF (joinLines r ++ ['\n'])
    · rw [if_neg hcr]
      have hlast : endsWithNL (joinLines r ++ ['\n']) = true := by
        simp [endsWithNL, getLast_append_singleton]
      exact ⟨⟨fun _ => by simp, fun _ => hlast⟩, fun _ => hlast,
             fun hh => absurd hh hcr⟩
  · rw [if_neg hcond]
    push_neg at hcond
    have hj : joinLines r = [] := List.length_eq_zero.mp (by omega)
    rw [hj]
    by_cases hcr : strContains C ("\r\n".data) = true
    · rw [if_pos hcr]
      exact ⟨by simp [lfToCRLF, endsWithNL], fun hh => absurd hh hcond.1,
             fun _ => by simp [lfToCRLF, noBareLF]⟩
    · rw [if_neg hcr]
      exact ⟨by simp [endsWithNL], fun hh => absurd hh hcond.1,
             fun _ => by simp [noBareLF]⟩

/-! ## Claim C4 -/

/-- Claim C4 (corrected): for every original content `C` and diff on which
`applyPatch` succeeds, the patched content ends with a trailing newline iff
it is nonempty — in particular the newline is preserved whenever the
normalized `C` ended with one, but it is also *added* to any nonempty
output; and if `C` contained `\r\n` anywhere then the patched content has
no bare `\n` (every `\n` is part of a `\r\n`). -/
theorem applyPatch_conventions :
    ∀ (C D p : JsStr), (applyPatch C D).patchedContent = some p →
      (endsWithNL p = true ↔ p ≠ []) ∧
      (endsWithNL (replaceCRLF C) = true → endsWithNL p = true) ∧
      (strContains C ("\r\n".data) = true → noBareLF p = true) := by
  intro C D p h
  rcases applyPatch_patchedContent C D p h with ⟨r, rfl⟩
  exact reconstruct_props C r

/-- Counterexample to C4 as stated: the original `"a"` does not end with a
newline, yet the successful patch output `"B\n"` does. -/
theorem applyPatch_conventions_cex :
    applyPatch ("a".data) ("@@ -1,1 +1,1 @@\n-a\n+B".data) =
      ⟨true, some ("B\n".data), [], none⟩ ∧
    endsWithNL (replaceCRLF ("a".data)) = false ∧
    endsWithNL ("B\n".data) = true := by decide

/-- Witness for C4 at a concrete input. -/
theorem applyPatch_conventions_witness :
    (endsWithNL ("B\n".data) = true ↔ ("B\n".data : JsStr) ≠ []) ∧
    (endsWithNL (replaceCRLF ("a\n".data)) = true →
       endsWithNL ("B\n".data) = true) ∧
    (strContains ("a\n".data) ("\r\n".data) = true →
       noBareLF ("B\n".data) = true) :=
  applyPatch_conventions ("a\n".data) exDiffOnA ("B\n".data) (by decide)

/-! ## Claim C5 -/

/-- Claim C5 (corrected): `applyPatch` applies the parsed hunks in reverse
order of appearance — descending `oldStart` whenever they appear in
ascending order — splicing each hunk's emitted lines over the `oldCount`
original lines starting at `oldStart - 1`, and a splice never changes the
entries below its start index; for the scenario original `"a\nb\nc\n"` and
the hunk text without a trailing newline the result is `"a\nB\nc\n"` (the
trailing-newline variant is the counterexample). -/
theorem applyPatch_reverse_order :
    (applyPatch exOriginal exDiffBare = ⟨true, some ("a\nB\nc\n".data), [], none⟩) ∧
    (∀ (D : JsStr) (hunks : List Hunk), parseHunks D = some hunks →
       List.Pairwise (fun a b => a.oldStart ≤ b.oldStart) hunks →
       List.Pairwise (fun a b => b.oldStart ≤ a.oldStart) hunks.reverse) ∧
    (∀ (originalContent D : JsStr) (hunks : List Hunk),
       parseHunks D = some hunks → hunks ≠ [] →
       (applyPatch originalContent D).patchedContent =
         some (reconstruct originalContent
           (applyHunksLoop hunks.reverse (contentLines originalContent) []).1)) ∧
    (∀ (arr : List JsStr) (s : Int) (c : Nat) (items : List JsStr) (i : Nat),
       0 ≤ s → (i : Int) < s → i < arr.length →
       (jsSplice arr s c items).get? i = arr.get? i) := by
  refine ⟨by decide, ?_, ?_, ?_⟩
  · intro D hunks _ hsort
    exact List.pairwise_reverse.mpr hsort
  · intro originalContent D hunks hp hne
    unfold applyPatch applyPatchWarn
    simp only [hp]
    rw [if_neg hne]
  · intro arr s c items i hs hi hilen
    simp only [jsSplice]
    rw [if_neg (by omega : ¬ s < 0)]
    have hact : i < ((min s (arr.length : Int))).toNat := by omega
    have htl : ((arr.take ((min s (arr.length : Int))).toNat).length) =
        ((min s (arr.length : Int))).toNat := by
      rw [List.length_take]
      omega
    rw [List.get?_append (by rw [List.length_append, htl]; omega),
        List.get?_append (by rw [htl]; omega),
        List.get?_take (by omega)]

/-- Counterexample to C5 as stated: with the trailing newline the spec's
scenario diff carries a final empty context line, and the patched content
gains an empty line — `"a\nB\n\nc\n"`, not `"a\nB\nc\n"`. -/
theorem applyPatch_reverse_order_cex :
    applyPatch exOriginal exDiffNl = ⟨true, some ("a\nB\n\nc\n".data), [], none⟩ ∧
    ("a\nB\n\nc\n".data : JsStr) ≠ ("a\nB\nc\n".data) := by decide

/-- Witness for C5: the quantified parts at concrete inputs. -/
theorem applyPatch_reverse_order_witness :
    List.Pairwise (fun a b => b.oldStart ≤ a.oldStart)
      ([⟨2, 1, 2, 1, [⟨ChangeType.remove, ("b".data)⟩,
                      ⟨ChangeType.add, ("B".data)⟩]⟩] : List Hunk).reverse ∧
    (applyPatch exOriginal exDiffBare).patchedContent =
      some (reconstruct exOriginal
        (applyHunksLoop
          ([⟨2, 1, 2, 1, [⟨ChangeType.remove, ("b".data)⟩,
                          ⟨ChangeType.add, ("B".data)⟩]⟩] : List Hunk).reverse
          (contentLines exOriginal) []).1) ∧
    (jsSplice [("a".data), ("b".data)] 1 1 [("B".data)]).get? 0 =
      [("a".data), ("b".data)].get? 0 := by
  refine ⟨?_, ?_, ?_⟩
  · exact applyPatch_reverse_order.2.1 exDiffBare _ (by decide) (by decide)
  · exact applyPatch_reverse_order.2.2.1 exOriginal exDiffBare _ (by decide) (by decide)
  · exact applyPatch_reverse_order.2.2.2 [("a".data), ("b".data)] 1 1 [("B".data)] 0
      (by decide) (by decide) (by decide)

/-- Appending a trailing carriage return after a literal never helps:
the literal consumes only its own characters. -/
theorem dropLit_append_cr (lit : JsStr) (hn : '\r' ∉ lit) :
    ∀ s, dropLit lit (s ++ ['\r']) = (dropLit lit s).map (fun r => r ++ ['\r']) := by
  induction lit with
  | nil => intro s; rfl
  | cons p ps ih =>
    intro s
    cases s with
    | nil =>
      have hp : ¬ ('\r' : Char) = p := fun e => hn (by rw [← e]; exact List.mem_cons_self _ _)
      simp only [List.nil_append, dropLit]
      rw [if_neg hp]
      rfl
    | cons c s' =>
      simp only [List.cons_append, dropLit]
      by_cases hc : c = p
      · rw [if_pos hc, if_pos hc]
        exact ih (fun hm => hn (List.mem_cons_of_mem _ hm)) s'
      · rw [if_neg hc, if_neg hc]
        rfl

/-- A trailing carriage return is never part of the digit run. -/
theorem takeWhile_digits_append_cr (s : JsStr) :
    (s ++ ['\r']).takeWhile Char.isDigit = s.takeWhile Char.isDigit := by
  induction s with
  | nil => decide
  | cons c s' ih =>
    simp only [List.cons_append, List.takeWhile_cons]
    by_cases hc : c.isDigit = true
    · rw [hc]; simp [ih]
    · rw [Bool.not_eq_true] at hc; rw [hc]; simp

/-- The remainder after the digit run keeps the carriage return. -/
theorem dropWhile_digits_append_cr (s : JsStr) :
    (s ++ ['\r']).dropWhile Char.isDigit = s.dropWhile Char.isDigit ++ ['\r'] := by
  induction s with
  | nil => decide
  | cons c s' ih =>
    simp only [List.cons_append, List.dropWhile_cons]
    by_cases hc : c.isDigit = true
    · rw [hc]; simp [ih]
    · rw [Bool.not_eq_true] at hc; rw [hc]; simp

/-- Digit parsing is unchanged by a trailing carriage return. -/
theorem digits_append_cr (s : JsStr) :
    digits (s ++ ['\r']) = (digits s).map (fun q => (q.1, q.2 ++ ['\r'])) := by
  unfold digits
  rw [takeWhile_digits_append_cr, dropWhile_digits_append_cr]
  rcases htw : s.takeWhile Char.isDigit with _ | ⟨d, ds⟩
  · rfl
  · rfl

/-- The optional count group is unchanged by a trailing carriage return. -/
theorem optCount_append_cr (s : JsStr) :
    optCount (s ++ ['\r']) = ((optCount s).1, (optCount s).2 ++ ['\r']) := by
  cases s with
  | nil => rfl
  | cons c s' =>
    by_cases hc : c = ','
    · subst hc
      simp only [List.cons_append, optCount]
      rw [digits_append_cr]
      rcases hd : digits s' with _ | ⟨n, r⟩
      · rfl
      · rfl
    · cases c
      simp only [List.cons_append, optCount]
      split
      · rename_i heq
        exact absurd (congrArg List.head? heq).symm (by simp; intro h; exact hc (by rw [h]))
      · split
        · rename_i heq
          exact absurd (congrArg List.head? heq).symm (by simp; intro h; exact hc (by rw [h]))
        · rfl

/-- Matching the hunk header pattern at a position ignores a trailing
carriage return (no pattern character can consume it). -/
theorem matchHunkHeaderAt_append_cr (s : JsStr) :
    matchHunkHeaderAt (s ++ ['\r']) = matchHunkHeaderAt s := by
  unfold matchHunkHeaderAt
  rw [dropLit_append_cr ("@@ -".data) (by decide) s]
  rcases h1 : dropLit ("@@ -".data) s with _ | s1
  · rfl
  · simp only [Option.map_some']
    rw [digits_append_cr]
    rcases h2 : digits s1 with _ | ⟨a, s2⟩
    · rfl
    · simp only [Option.map_some']
      rw [optCount_append_cr]
      rcases h3 : optCount s2 with ⟨ac, s3⟩
      simp only
      rw [dropLit_append_cr (" +".data) (by decide) s3]
      rcases h4 : dropLit (" +".data) s3 with _ | s4
      · rfl
      · simp only [Option.map_some']
        rw [digits_append_cr]
        rcases h5 : digits s4 with _ | ⟨b, s5⟩
        · rfl
        · simp only [Option.map_some']
          rw [optCount_append_cr]
          rcases h6 : optCount s5 with ⟨bc, s6⟩
          simp only
          rw [dropLit_append_cr (" @@".data) (by decide) s6]
          rcases h7 : dropLit (" @@".data) s6 with _ | s7
          · rfl
          · rfl

/-- One unfolding step of the header search on a nonempty string. -/
theorem searchHunkHeader_cons (c : Char) (t : JsStr) :
    searchHunkHeader (c :: t) =
      match matchHunkHeaderAt (c :: t) with
      | some h => some h
      | none => searchHunkHeader t := rfl

/-- Searching the hunk header pattern ignores a trailing carriage
return. -/
theorem searchHunkHeader_append_cr (s : JsStr) :
    searchHunkHeader (s ++ ['\r']) = searchHunkHeader s := by
  induction s with
  | nil => decide
  | cons c s' ih =>
    rw [List.cons_append, searchHunkHeader_cons, searchHunkHeader_cons c s']
    rw [show (c :: (s' ++ ['\r'])) = (c :: s') ++ ['\r'] from rfl,
        matchHunkHeaderAt_append_cr (c :: s')]
    rcases hm : matchHunkHeaderAt (c :: s') with _ | h
    · exact ih
    · rfl

/-- `parseHunkHeader` is insensitive to the trailing `'\r'` that splitting
a `\r\n` diff on `'\n'` leaves on every line. -/
theorem parseHunkHeader_append_cr (l : JsStr) :
    parseHunkHeader (l ++ ['\r']) = parseHunkHeader l :=
  searchHunkHeader_append_cr l

/-! ## Claim C9 -/

/-- Claim C9 (corrected): the diff text is *not* normalized before hunk
parsing — splitting is on `'\n'` only.  Tolerance of `\r\n` diffs is
limited: hunk headers still parse to the same four numbers (the stray
`'\r'` sits after the closing `@@`) and nonempty body lines keep their
change type, but every parsed line text retains its trailing `'\r'`, so
the patched content of the `\r\n` diff differs from the `\n` one by
embedded `'\r'` characters. -/
theorem applyPatch_crlf_diff_partial :
    (∀ l : JsStr, parseHunkHeader (l ++ ['\r']) = parseHunkHeader l) ∧
    parseHunks exDiffNl =
      some [⟨2, 1, 2, 1, [⟨ChangeType.remove, ("b".data)⟩,
                          ⟨ChangeType.add, ("B".data)⟩,
                          ⟨ChangeType.context, []⟩]⟩] ∧
    parseHunks exDiffCRLF =
      some [⟨2, 1, 2, 1, [⟨ChangeType.remove, ("b\r".data)⟩,
                          ⟨ChangeType.add, ("B\r".data)⟩,
                          ⟨ChangeType.context, []⟩]⟩] ∧
    applyPatch exOriginal exDiffCRLF =
      ⟨true, some ("a\nB\r\n\nc\n".data), [], none⟩ :=
  ⟨parseHunkHeader_append_cr, by decide, by decide, by decide⟩

/-- Counterexample to C9 as stated: the `\r\n` version of the scenario
diff parses to a different hunk sequence and patches to different content
than the `\n` version. -/
theorem applyPatch_crlf_diff_cex :
    applyPatch exOriginal exDiffCRLF = ⟨true, some ("a\nB\r\n\nc\n".data), [], none⟩ ∧
    applyPatch exOriginal exDiffNl = ⟨true, some ("a\nB\n\nc\n".data), [], none⟩ ∧
    parseHunks exDiffCRLF ≠ parseHunks exDiffNl ∧
    ("a\nB\r\n\nc\n".data : JsStr) ≠ ("a\nB\n\nc\n".data) := by decide

/-- A copy with the environment's consent from an existing source. -/
theorem copyFileUTF8_ok (env : Env) (fs : FsState) (src dst v : JsStr)
    (hc : env.copyOk src dst = true) (hsrc : fs src = some v) :
    copyFileUTF8 env fs src dst =
      (true, fsUpdate fs dst (some v), FsEvent.copyEv src dst true) := by
  unfold copyFileUTF8
  rw [hc, hsrc]
  simp

/-- A failed write: failure flag, its event, and frame condition. -/
theorem writeFileUTF8_fail (env : Env) (fs : FsState) (p content : JsStr)
    (hw : env.writeOk = false) :
    (writeFileUTF8 env fs p content).1 = false ∧
    (writeFileUTF8 env fs p content).2.2 = FsEvent.writeEv p false ∧
    ∀ q, ¬ q = p → (writeFileUTF8 env fs p content).2.1 q = fs q := by
  unfold writeFileUTF8
  rw [hw]
  refine ⟨by simp, by simp, ?_⟩
  intro q hq
  simp only [Bool.false_eq_true, if_false]
  rcases hg : env.writeFailContent with _ | g <;> simp [hg, fsUpdate, hq]

/-! ## Claim C1 -/

/-- Claim C1 (confirmed): whenever `applyDiffToFile` has created the
backup, computed the patch successfully, and the write to the target
fails but the rollback copy succeeds, it returns failure reporting the
backup path with an error naming the write failure and the rollback, the
target file ends byte-identical to its pre-call content, and the trace
shows the rollback copy immediately after the failed write. -/
theorem applyDiffToFile_rollback_on_write_failure :
    ∀ (env : Env) (fs : FsState) (fp ud orig : JsStr),
      fs (env.resolve fp) = some orig →
      env.readOk = true →
      env.copyOk (env.resolve fp) (backupTarget env fs (env.resolve fp)) = true →
      (applyPatch (readNormalize orig) ud).success = true →
      env.writeOk = false →
      env.copyOk (backupTarget env fs (env.resolve fp)) (env.resolve fp) = true →
      (applyDiffToFile env fs fp ud).1 =
        ⟨false, some (backupTarget env fs (env.resolve fp)),
         some (("Write failed: ".data) ++ env.writeErr ++ (". Rolled back.".data))⟩ ∧
      (applyDiffToFile env fs fp ud).2.1 (env.resolve fp) = some orig ∧
      (applyDiffToFile env fs fp ud).2.2 =
        [FsEvent.readEv (env.resolve fp) true,
         FsEvent.copyEv (env.resolve fp) (backupTarget env fs (env.resolve fp)) true,
         FsEvent.writeEv (env.resolve fp) false,
         FsEvent.copyEv (backupTarget env fs (env.resolve fp)) (env.resolve fp) true] := by
  intro env fs fp ud orig hfs hread hbak hpatch hw hroll
  have hbpne : ¬ backupTarget env fs (env.resolve fp) = env.resolve fp :=
    backupTarget_ne env fs (env.resolve fp)
  have h2 : readFileUTF8 env fs (env.resolve fp) =
      (some (readNormalize orig), FsEvent.readEv (env.resolve fp) true) := by
    simp [readFileUTF8, hfs, hread]
  have h3 : createBackup env fs (env.resolve fp) =
      (some (backupTarget env fs (env.resolve fp)),
       fsUpdate fs (backupTarget env fs (env.resolve fp)) (some orig),
       FsEvent.copyEv (env.resolve fp) (backupTarget env fs (env.resolve fp)) true) := by
    unfold createBackup
    rw [copyFileUTF8_ok env fs (env.resolve fp)
        (backupTarget env fs (env.resolve fp)) orig hbak hfs]
  have h5 := writeFileUTF8_fail env
    (fsUpdate fs (backupTarget env fs (env.resolve fp)) (some orig))
    (env.resolve fp)
    (((applyPatch (readNormalize orig) ud).patchedContent).getD []) hw
  have h5eq : writeFileUTF8 env
      (fsUpdate fs (backupTarget env fs (env.resolve fp)) (some orig))
      (env.resolve fp)
      (((applyPatch (readNormalize orig) ud).patchedContent).getD []) =
      ((writeFileUTF8 env
          (fsUpdate fs (backupTarget env fs (env.resolve fp)) (some orig))
          (env.resolve fp)
          (((applyPatch (readNormalize orig) ud).patchedContent).getD [])).1,
       (writeFileUTF8 env
          (fsUpdate fs (backupTarget env fs (env.resolve fp)) (some orig))
          (env.resolve fp)
          (((applyPatch (readNormalize orig) ud).patchedContent).getD [])).2.1,
       (writeFileUTF8 env
          (fsUpdate fs (backupTarget env fs (env.resolve fp)) (some orig))
          (env.resolve fp)
          (((applyPatch (readNormalize orig) ud).patchedContent).getD [])).2.2) := rfl
  rw [h5.1, h5.2.1] at h5eq
  have hfs2bp : (writeFileUTF8 env
      (fsUpdate fs (backupTarget env fs (env.resolve fp)) (some orig))
      (env.resolve fp)
      (((applyPatch (readNormalize orig) ud).patchedContent).getD [])).2.1
      (backupTarget env fs (env.resolve fp)) = some orig := by
    rw [h5.2.2 _ hbpne]
    simp [fsUpdate]
  have h6 : restoreFromBackup env
      (writeFileUTF8 env
        (fsUpdate fs (backupTarget env fs (env.resolve fp)) (some orig))
        (env.resolve fp)
        (((applyPatch (readNormalize orig) ud).patchedContent).getD [])).2.1
      (env.resolve fp) (backupTarget env fs (env.resolve fp)) =
      (true,
       fsUpdate
         (writeFileUTF8 env
           (fsUpdate fs (backupTarget env fs (env.resolve fp)) (some orig))
           (env.resolve fp)
           (((applyPatch (readNormalize orig) ud).patchedContent).getD [])).2.1
         (env.resolve fp) (some orig),
       FsEvent.copyEv (backupTarget env fs (env.resolve fp)) (env.resolve fp) true) := by
    unfold restoreFromBackup
    rw [copyFileUTF8_ok _ _ _ _ orig hroll hfs2bp]
  unfold applyDiffToFile
  rw [if_neg (by simp [fileExists, hfs]), h2]
  simp only [h3]
  rw [if_neg (by simp [hpatch]), h5eq]
  simp only [h6]
  refine ⟨trivial, ?_, trivial⟩
  simp [fsUpdate]

/-- Witness for C1: the rollback scenario on a concrete filesystem. -/
theorem applyDiffToFile_rollback_on_write_failure_witness :
    (applyDiffToFile envRollback fsOne ("f.txt".data) exDiffOnA).1 =
      ⟨false, some (backupTarget envRollback fsOne (envRollback.resolve ("f.txt".data))),
       some (("Write failed: ".data) ++ envRollback.writeErr ++ (". Rolled back.".data))⟩ ∧
    (applyDiffToFile envRollback fsOne ("f.txt".data) exDiffOnA).2.1
      (envRollback.resolve ("f.txt".data)) = some ("a\n".data) ∧
    (applyDiffToFile envRollback fsOne ("f.txt".data) exDiffOnA).2.2 =
      [FsEvent.readEv (envRollback.resolve ("f.txt".data)) true,
       FsEvent.copyEv (envRollback.resolve ("f.txt".data))
         (backupTarget envRollback fsOne (envRollback.resolve ("f.txt".data))) true,
       FsEvent.writeEv (envRollback.resolve ("f.txt".data)) false,
       FsEvent.copyEv (backupTarget envRollback fsOne (envRollback.resolve ("f.txt".data)))
         (envRollback.resolve ("f.txt".data)) true] :=
  applyDiffToFile_rollback_on_write_failure envRollback fsOne ("f.txt".data)
    exDiffOnA ("a\n".data) (by decide) rfl (by decide) (by decide) rfl (by decide)

/-- The read primitive only emits read events on its own path. -/
theorem readFileUTF8_ev (env : Env) (fs : FsState) (p : JsStr) :
    ∃ b, (readFileUTF8 env fs p).2 = FsEvent.readEv p b := by
  unfold readFileUTF8
  rcases hf : fs p with _ | raw
  · exact ⟨false, rfl⟩
  · dsimp only
    by_cases hr : env.readOk = true
    · rw [if_pos hr]; exact ⟨true, rfl⟩
    · rw [if_neg hr]; exact ⟨false, rfl⟩

/-- A successful read's event. -/
theorem readFileUTF8_some (env : Env) (fs : FsState) (p c : JsStr) (ev : FsEvent)
    (h : readFileUTF8 env fs p = (some c, ev)) : ev = FsEvent.readEv p true := by
  unfold readFileUTF8 at h
  rcases hf : fs p with _ | raw <;> rw [hf] at h
  · exact absurd (congrArg Prod.fst h) (by simp)
  · dsimp only at h
    by_cases hr : env.readOk = true
    · rw [if_pos hr] at h
      have := congrArg Prod.snd h
      simpa using this.symm
    · rw [if_neg hr] at h
      exact absurd (congrArg Prod.fst h) (by simp)

/-- The copy primitive's event carries its success flag. -/
theorem copyFileUTF8_ev (env : Env) (fs : FsState) (src dst : JsStr) :
    (copyFileUTF8 env fs src dst).2.2 =
      FsEvent.copyEv src dst (copyFileUTF8 env fs src dst).1 := by
  unfold copyFileUTF8
  split <;> rfl

/-- The write primitive's event carries its success flag. -/
theorem writeFileUTF8_ev (env : Env) (fs : FsState) (p content : JsStr) :
    (writeFileUTF8 env fs p content).2.2 =
      FsEvent.writeEv p (writeFileUTF8 env fs p content).1 := by
  unfold writeFileUTF8
  split <;> rfl

/-- A failed backup's event. -/
theorem createBackup_none (env : Env) (fs : FsState) (p : JsStr)
    (fs' : FsState) (ev : FsEvent) (h : createBackup env fs p = (none, fs', ev)) :
    ev = FsEvent.copyEv p (backupTarget env fs p) false := by
  unfold createBackup at h
  rcases hc : copyFileUTF8 env fs p (backupTarget env fs p) with ⟨ok, fs2, ev2⟩
  rw [hc] at h
  have hev2 := copyFileUTF8_ev env fs p (backupTarget env fs p)
  rw [hc] at hev2
  simp only at hev2
  cases ok
  · simp only [Prod.mk.injEq] at h
    rw [← h.2.2]
    exact hev2
  · simp at h

/-- A successful backup's path and event. -/
theorem createBackup_some (env : Env) (fs : FsState) (p bp : JsStr)
    (fs' : FsState) (ev : FsEvent) (h : createBackup env fs p = (some bp, fs', ev)) :
    bp = backupTarget env fs p ∧ ev = FsEvent.copyEv p bp true := by
  unfold createBackup at h
  rcases hc : copyFileUTF8 env fs p (backupTarget env fs p) with ⟨ok, fs2, ev2⟩
  rw [hc] at h
  have hev2 := copyFileUTF8_ev env fs p (backupTarget env fs p)
  rw [hc] at hev2
  simp only at hev2
  cases ok
  · simp at h
  · simp only [Prod.mk.injEq, Option.some.injEq] at h
    refine ⟨h.1.symm, ?_⟩
    rw [← h.2.2, hev2, h.1]

/-- Every possible I/O trace of `applyDiffToFile`. -/
theorem applyDiffToFile_trace_cases (env : Env) (fs : FsState) (fp ud : JsStr) :
    (applyDiffToFile env fs fp ud).2.2 = [] ∨
    (∃ b, (applyDiffToFile env fs fp ud).2.2 =
       [FsEvent.readEv (env.resolve fp) b]) ∨
    (∃ b, (applyDiffToFile env fs fp ud).2.2 =
       [FsEvent.readEv (env.resolve fp) true,
        FsEvent.copyEv (env.resolve fp) (backupTarget env fs (env.resolve fp)) b]) ∨
    (∃ b, (applyDiffToFile env fs fp ud).2.2 =
       [FsEvent.readEv (env.resolve fp) true,
        FsEvent.copyEv (env.resolve fp) (backupTarget env fs (env.resolve fp)) true,
        FsEvent.writeEv (env.resolve fp) b]) ∨
    (∃ b, (applyDiffToFile env fs fp ud).2.2 =
       [FsEvent.readEv (env.resolve fp) true,
        FsEvent.copyEv (env.resolve fp) (backupTarget env fs (env.resolve fp)) true,
        FsEvent.writeEv (env.resolve fp) false,
        FsEvent.copyEv (backupTarget env fs (env.resolve fp)) (env.resolve fp) b]) := by
  unfold applyDiffToFile
  by_cases hex : fileExists fs (env.resolve fp) = false
  · rw [if_pos hex]
    exact Or.inl rfl
  rw [if_neg hex]
  rcases hr : readFileUTF8 env fs (env.resolve fp) with ⟨o, ev1⟩
  rcases o with _ | c
  · rcases readFileUTF8_ev env fs (env.resolve fp) with ⟨b, hb⟩
    rw [hr] at hb
    simp only at hb
    dsimp only
    exact Or.inr (Or.inl ⟨b, by rw [hb]⟩)
  · have hev1 : ev1 = FsEvent.readEv (env.resolve fp) true :=
      readFileUTF8_some env fs (env.resolve fp) c ev1 hr
    rcases hb : createBackup env fs (env.resolve fp) with ⟨ob, fs1, ev2⟩
    rcases ob with _ | bp
    · have hev2 := createBackup_none env fs (env.resolve fp) fs1 ev2 hb
      dsimp only
      exact Or.inr (Or.inr (Or.inl ⟨false, by rw [hev1, hev2]⟩))
    · rcases createBackup_some env fs (env.resolve fp) bp fs1 ev2 hb with ⟨hbp, hev2⟩
      dsimp only
      by_cases hps : (applyPatch c ud).success = false
      · rw [if_pos hps]
        exact Or.inr (Or.inr (Or.inl ⟨true, by rw [hev1, hev2, hbp]⟩))
      · rw [if_neg hps]
        rcases hwr : writeFileUTF8 env fs1 (env.resolve fp)
            (((applyPatch c ud).patchedContent).getD []) with ⟨wok, fs2, ev3⟩
        have hev3 := writeFileUTF8_ev env fs1 (env.resolve fp)
          (((applyPatch c ud).patchedContent).getD [])
        rw [hwr] at hev3
        simp only at hev3
        rcases wok with _ | _
        · dsimp only
          rcases hres : restoreFromBackup env fs2 (env.resolve fp) bp with ⟨rok, fs3, ev4⟩
          have hev4 := copyFileUTF8_ev env fs2 bp (env.resolve fp)
          rw [show copyFileUTF8 env fs2 bp (env.resolve fp) =
                restoreFromBackup env fs2 (env.resolve fp) bp from rfl, hres] at hev4
          simp only at hev4
          rcases rok with _ | _
          · dsimp only
            exact Or.inr (Or.inr (Or.inr (Or.inr
              ⟨false, by rw [hev1, hev2, hev3, hev4, hbp]⟩)))
          · dsimp only
            exact Or.inr (Or.inr (Or.inr (Or.inr
              ⟨true, by rw [hev1, hev2, hev3, hev4, hbp]⟩)))
        · dsimp only
          exact Or.inr (Or.inr (Or.inr (Or.inl
            ⟨true, by rw [hev1, hev2, hev3, hbp]⟩)))

/-! ## Claim C2 -/

/-- Claim C2 (confirmed): in every execution of `applyDiffToFile`, any
event that can mutate the target file is preceded in the trace by a
successful backup copy whose source is the target (backup strictly
precedes any mutation); and when backup creation fails, the call returns
failure with a null backup path and the backup-failed error, performs no
write at all, and leaves the target byte-identical to its pre-call
content. -/
theorem applyDiffToFile_backup_precedes_mutation :
    (∀ (env : Env) (fs : FsState) (fp ud : JsStr) (i : Nat) (e : FsEvent),
       (applyDiffToFile env fs fp ud).2.2.get? i = some e →
       mutatesPath e (env.resolve fp) = true →
       ∃ j dst, j < i ∧ (applyDiffToFile env fs fp ud).2.2.get? j =
         some (FsEvent.copyEv (env.resolve fp) dst true)) ∧
    (∀ (env : Env) (fs : FsState) (fp ud orig : JsStr),
       fs (env.resolve fp) = some orig →
       env.readOk = true →
       env.copyOk (env.resolve fp) (backupTarget env fs (env.resolve fp)) = false →
       (applyDiffToFile env fs fp ud).1 = ⟨false, none, some errBackup⟩ ∧
       (applyDiffToFile env fs fp ud).2.1 (env.resolve fp) = some orig ∧
       ∀ e ∈ (applyDiffToFile env fs fp ud).2.2, e.isWrite = false) := by
  constructor
  · intro env fs fp ud i e hget hmut
    have hbpne : ¬ backupTarget env fs (env.resolve fp) = env.resolve fp :=
      backupTarget_ne env fs (env.resolve fp)
    rcases applyDiffToFile_trace_cases env fs fp ud with
      htr | ⟨b, htr⟩ | ⟨b, htr⟩ | ⟨b, htr⟩ | ⟨b, htr⟩
    · rw [htr] at hget
      simp at hget
    · rw [htr] at hget
      rcases i with _ | i
      · simp at hget
        rw [← hget] at hmut
        simp [mutatesPath] at hmut
      · simp at hget
    · rw [htr] at hget
      rcases i with _ | _ | i
      · simp at hget
        rw [← hget] at hmut
        simp [mutatesPath] at hmut
      · simp at hget
        rw [← hget] at hmut
        simp [mutatesPath] at hmut
        exact absurd hmut hbpne
      · simp at hget
    · rw [htr] at hget
      rcases i with _ | _ | _ | i
      · simp at hget
        rw [← hget] at hmut
        simp [mutatesPath] at hmut
      · simp at hget
        rw [← hget] at hmut
        simp [mutatesPath] at hmut
        exact absurd hmut hbpne
      · exact ⟨1, backupTarget env fs (env.resolve fp), by omega, by rw [htr]; rfl⟩
      · simp at hget
    · rw [htr] at hget
      rcases i with _ | _ | _ | _ | i
      · simp at hget
        rw [← hget] at hmut
        simp [mutatesPath] at hmut
      · simp at hget
        rw [← hget] at hmut
        simp [mutatesPath] at hmut
        exact absurd hmut hbpne
      · exact ⟨1, backupTarget env fs (env.resolve fp), by omega, by rw [htr]; rfl⟩
      · exact ⟨1, backupTarget env fs (env.resolve fp), by omega, by rw [htr]; rfl⟩
      · simp at hget
  · intro env fs fp ud orig hfs hread hbak
    have hbpne : ¬ backupTarget env fs (env.resolve fp) = env.resolve fp :=
      backupTarget_ne env fs (env.resolve fp)
    have h2 : readFileUTF8 env fs (env.resolve fp) =
        (some (readNormalize orig), FsEvent.readEv (env.resolve fp) true) := by
      simp [readFileUTF8, hfs, hread]
    have h3 : createBackup env fs (env.resolve fp) =
        (none,
         (copyFileUTF8 env fs (env.resolve fp)
            (backupTarget env fs (env.resolve fp))).2.1,
         FsEvent.copyEv (env.resolve fp) (backupTarget env fs (env.resolve fp)) false) := by
      unfold createBackup copyFileUTF8
      rw [hbak]
      simp
    have hframe : (copyFileUTF8 env fs (env.resolve fp)
        (backupTarget env fs (env.resolve fp))).2.1 (env.resolve fp) = some orig := by
      unfold copyFileUTF8
      rw [hbak]
      simp only [Bool.false_and, Bool.false_eq_true, if_false]
      rcases hg : env.copyFailContent (backupTarget env fs (env.resolve fp)) with _ | g
      · exact hfs
      · simp [fsUpdate, Ne.symm hbpne, hfs]
    unfold applyDiffToFile
    rw [if_neg (by simp [fileExists, hfs]), h2]
    simp only [h3]
    refine ⟨trivial, hframe, ?_⟩
    intro e he
    simp at he
    rcases he with rfl | rfl <;> rfl

/-- Witness for C2: the ordering part at the fully-successful run, and the
backup-failure part at an environment whose copies fail. -/
theorem applyDiffToFile_backup_precedes_mutation_witness :
    (∃ j dst, j < 2 ∧
       (applyDiffToFile envHappy fsOne ("f.txt".data) exDiffOnA).2.2.get? j =
         some (FsEvent.copyEv (envHappy.resolve ("f.txt".data)) dst true)) ∧
    ((applyDiffToFile envNoCopy fsOne ("f.txt".data) exDiffOnA).1 =
       ⟨false, none, some errBackup⟩ ∧
     (applyDiffToFile envNoCopy fsOne ("f.txt".data) exDiffOnA).2.1
       (envNoCopy.resolve ("f.txt".data)) = some ("a\n".data) ∧
     ∀ e ∈ (applyDiffToFile envNoCopy fsOne ("f.txt".data) exDiffOnA).2.2,
       e.isWrite = false) :=
  ⟨applyDiffToFile_backup_precedes_mutation.1 envHappy fsOne ("f.txt".data)
     exDiffOnA 2 (FsEvent.writeEv (envHappy.resolve ("f.txt".data)) true)
     (by decide) (by decide),
   applyDiffToFile_backup_precedes_mutation.2 envNoCopy fsOne ("f.txt".data)
     exDiffOnA ("a\n".data) (by decide) rfl (by decide)⟩


